import Mathlib

/-!
Verification development for a PNG decoder library.

Bytes are modelled as `Nat` (values `< 256` where it matters), `u32` values as
`Nat` with explicit masking to 32 bits, and byte streams as `List Nat`.
Fallible Rust functions returning `io::Result`/`Result` are modelled with
explicit outcome types; Rust panics (`assert!`, `todo!`, arithmetic underflow
in debug builds) are modelled by a dedicated `panic`-style constructor.
-/

namespace PngV

/-! ## Checksum engine (`src/intermediate/chunk.rs`: `make_crc_table`, `Chunk::crc`)

`make_crc_table` iterates eight single-bit steps on each table index; the table
entry for index `n` is therefore `crcStep` iterated 8 times on `n`.
-/

/-- One bit-step of the table construction in `make_crc_table`. -/
def crcStep (c : Nat) : Nat :=
  if c &&& 1 = 1 then 0xedb88320 ^^^ (c >>> 1) else c >>> 1

/-- `CRC_TABLE[n]` from `make_crc_table`. -/
def crcTable (n : Nat) : Nat := crcStep^[8] n

/-- One byte update of the running CRC, as in `Chunk::crc` and
`ChunkReader::read`: `crc = CRC_TABLE[(crc ^ b) & 0xff] ^ (crc >> 8)`. -/
def crcUpdate (crc b : Nat) : Nat :=
  crcTable ((crc ^^^ b) &&& 0xff) ^^^ (crc >>> 8)

/-- `u32::MAX`. -/
def M32 : Nat := 0xFFFFFFFF

/-- `Chunk::crc`: fold the CRC update over kind bytes then data bytes,
starting from `u32::MAX`, and complement at the end. -/
def chunkCrc (kind data : List Nat) : Nat :=
  List.foldl crcUpdate (List.foldl crcUpdate M32 kind) data ^^^ M32

/-! ## Chunk kinds (`src/intermediate/chunk_kind.rs`) -/

/-- The bytes of `IHDR`. -/
def IHDRb : List Nat := [73, 72, 68, 82]

/-- The bytes of `IDAT`. -/
def IDATb : List Nat := [73, 68, 65, 84]

/-- The bytes of `IEND`. -/
def IENDb : List Nat := [73, 69, 78, 68]

namespace ChunkKind

/-- The per-byte validity test inside `ChunkKind::try_from`, transcribed with
the source's operator placement: `(v >= 65 && v <= 90) || (v >= 97 || v <= 122)`.
(The second disjunct uses `||` between the two comparisons, as the source does.) -/
def byteOk (v : Nat) : Bool :=
  decide ((65 ≤ v ∧ v ≤ 90) ∨ (97 ≤ v ∨ v ≤ 122))

/-- `ChunkKind::try_from(&[u8; 4])`. -/
def tryFrom (bytes : List Nat) : Option (List Nat) :=
  if bytes.all byteOk then some bytes else none

/-- `ChunkKind::critical`: bit 5 of the first byte is clear. -/
def critical (bytes : List Nat) : Bool := bytes.getD 0 0 &&& 0b100000 = 0

end ChunkKind

/-! ## Color kinds (`src/intermediate/color_kind.rs`) -/

end PngV

/-- 16-bit rgba color record (`src/lib.rs`: `Color`). -/
structure PngV.Color where
  red : Nat
  green : Nat
  blue : Nat
  alpha : Nat
deriving DecidableEq, Repr

namespace PngV

inductive ColorKind where
  /-- Greyscale (with alpha) -/
  | Grey (alpha : Bool)
  /-- Truecolor (with alpha) -/
  | True (alpha : Bool)
  /-- Indexed-color -/
  | Indexed
deriving DecidableEq, Repr

/-- `ColorKind::allowed_bit_depth`: allowed depths as a bit set. -/
def ColorKind.allowed_bit_depth : ColorKind → Nat
  | .Grey false => 0b11111
  | .True _ | .Grey true => 0b11000
  | .Indexed => 0b1111

/-- `ColorKind::channels`. -/
def ColorKind.channels : ColorKind → Nat
  | .Grey false => 1
  | .Grey true => 2
  | .True false => 3
  | .True true => 4
  | .Indexed => 1

/-- `ColorKind::try_from(u8)`. -/
def ColorKind.tryFrom (value : Nat) : Option ColorKind :=
  match value with
  | 0 => some (.Grey false)
  | 2 => some (.True false)
  | 3 => some .Indexed
  | 4 => some (.Grey true)
  | 6 => some (.True true)
  | _ => none

/-- `u8::count_ones`: the number of set bits among the 8 bits of a `u8`. -/
def countOnes (n : Nat) : Nat :=
  (List.range 8).foldl (fun a i => a + ((n >>> i) &&& 1)) 0

structure PngColor where
  kind : ColorKind
  depth : Nat
deriving DecidableEq, Repr

/-- `PngColor::new`: reject unless `depth` is a power of two contained in the
bit set `kind.allowed_bit_depth()`. -/
def PngColor.new (kind : ColorKind) (depth : Nat) : Option PngColor :=
  if countOnes depth ≠ 1 ∨ kind.allowed_bit_depth &&& depth ≠ depth then none
  else some ⟨kind, depth⟩

def PngColor.channels (c : PngColor) : Nat := c.kind.channels

/-- `PngColor::channel_mask`. The source panics on an invalid depth; a
validated `PngColor` always has depth in {1,2,4,8,16}, so the catch-all 0 is
unreachable there. -/
def PngColor.channel_mask (c : PngColor) : Nat :=
  match c.depth with
  | 16 => 0xFFFF
  | 8 => 0xFF
  | 4 => 15
  | 2 => 3
  | 1 => 1
  | _ => 0

/-- `PngColor::data_len`: bits per pixel. -/
def PngColor.data_len (c : PngColor) : Nat := c.channels * c.depth

/-- The bit-replication loop in `PngColor::parse`:
`while t < 16 { channel |= channel << t; t *= 2 }` on a `u16`.
The explicit `gas` bounds the iteration count so the recursion is structural;
for any `t ≥ 1` the loop runs at most 4 times, so `gas = 16` never runs out
(`t = 0` would loop forever in the source and is unreachable: `t` is a
validated bit depth). -/
def bitExpandGo : Nat → Nat → Nat → Nat
  | 0, _, channel => channel
  | gas + 1, t, channel =>
    if t < 16 then bitExpandGo gas (t * 2) ((channel ||| (channel <<< t)) &&& 0xFFFF)
    else channel

/-- The bit-replication loop entered with `t = depth`. -/
def bitExpand (t channel : Nat) : Nat := bitExpandGo 16 t channel

/-- The 16-bit big-endian window read in `PngColor::parse`:
`u16::from_be_bytes(*data[k..].first_chunk::<2>().unwrap_or(&[data[k], 0]))`.
The `[]` case would be an out-of-bounds panic in the source; it is never
reached because `k = start_bit / 16 < data.len()`. -/
def u16At (data : List Nat) (k : Nat) : Nat :=
  match data.drop k with
  | a :: b :: _ => a * 256 + b
  | [a] => a * 256
  | [] => 0

/-- One channel extraction in `PngColor::parse` at absolute bit offset
`startBit`. -/
def PngColor.parseChannel (c : PngColor) (data : List Nat) (startBit : Nat) : Nat :=
  let k := startBit / 16
  let shift := startBit % 16
  let mask := (c.channel_mask <<< shift) &&& 0xFFFF
  let d := u16At data k
  bitExpand c.depth ((d &&& mask) >>> shift)

/-- The `raw` vector accumulated for pixel `i` in `PngColor::parse`:
channels are visited in decreasing index order (`(0..channels).rev()`), so
`raw[0]` holds the channel with the highest index. -/
def PngColor.parsePixel (c : PngColor) (data : List Nat) (i : Nat) : List Nat :=
  (List.range c.channels).reverse.map
    (fun ch => c.parseChannel data (i * c.data_len + ch * c.depth))

/-- `PngColor::parse`. The result is `none` exactly when the source would hit
the `ColorKind::Indexed => todo!()` panic (an indexed color with at least one
pixel); otherwise it is the source's `Ok(colors)`. -/
def PngColor.parse (c : PngColor) (data : List Nat) : Option (List Color) :=
  if c.kind = ColorKind.Indexed ∧ data.length * 8 / c.data_len ≠ 0 then none
  else some <| (List.range (data.length * 8 / c.data_len)).map (fun i =>
    let raw := c.parsePixel data i
    match c.kind with
    | .Grey false => ⟨raw.getD 0 0, raw.getD 0 0, raw.getD 0 0, 0xFFFF⟩
    | .Grey true => ⟨raw.getD 0 0, raw.getD 0 0, raw.getD 0 0, raw.getD 1 0⟩
    | .True false => ⟨raw.getD 0 0, raw.getD 1 0, raw.getD 2 0, 0xFFFF⟩
    | .True true => ⟨raw.getD 0 0, raw.getD 1 0, raw.getD 2 0, raw.getD 3 0⟩
    | .Indexed => ⟨0, 0, 0, 0⟩)

/-- `PngParser::scanline_length`:
`self.width as usize * self.color.data_len().div_ceil(8) + 1`. -/
def scanline_length (width : Nat) (color : PngColor) : Nat :=
  width * ((color.data_len + 7) / 8) + 1

/-! ## Byte sources

A positioned byte source models `impl Read + Seek` (the source reads PNGs from
`Cursor`-like sources): `read_exact` yields the next `k` bytes and advances,
failing when fewer than `k` remain; `seek_relative` just moves the position.
-/

structure Reader where
  bytes : List Nat
  pos : Nat
deriving DecidableEq, Repr

/-- `read_exact` into a `k`-byte buffer. -/
def Reader.readExact (r : Reader) (k : Nat) : Option (List Nat × Reader) :=
  if r.pos + k ≤ r.bytes.length then
    some ((r.bytes.drop r.pos).take k, ⟨r.bytes, r.pos + k⟩)
  else none

/-- `u32::from_be_bytes` on a 4-byte list. -/
def beU32 (l : List Nat) : Nat := l.foldl (fun a b => a * 256 + b) 0

/-- The 4 big-endian bytes of a `u32` value. -/
def beBytes4 (n : Nat) : List Nat :=
  [(n >>> 24) &&& 0xff, (n >>> 16) &&& 0xff, (n >>> 8) &&& 0xff, n &&& 0xff]

def PNG_SIG : List Nat := [137, 80, 78, 71, 13, 10, 26, 10]

/-! ## Chunk codec (`src/intermediate/chunk.rs`) -/

structure Chunk where
  kind : List Nat
  data : List Nat
deriving DecidableEq, Repr

inductive ChunkReadResult where
  | ok (c : Chunk) (r : Reader)
  | ioError
  | invalidData
deriving DecidableEq, Repr

/-- `Chunk::read`: 4-byte big-endian length (reject > 2^31 - 1), 4-byte kind
(via `ChunkKind::try_from`), `len` data bytes, 4-byte big-endian CRC, verified
against `Chunk::crc` over kind + data. -/
def Chunk.read (r : Reader) : ChunkReadResult :=
  match r.readExact 4 with
  | none => .ioError
  | some (lenB, r) =>
    let len := beU32 lenB
    if len > 2 ^ 31 - 1 then .invalidData
    else match r.readExact 4 with
      | none => .ioError
      | some (kindB, r) =>
        match ChunkKind.tryFrom kindB with
        | none => .invalidData
        | some kind =>
          match r.readExact len with
          | none => .ioError
          | some (data, r) =>
            match r.readExact 4 with
            | none => .ioError
            | some (crcB, r) =>
              if chunkCrc kind data ≠ beU32 crcB then .invalidData
              else .ok ⟨kind, data⟩ r

/-! ## Whole-buffer chunk-sequence reader (`src/intermediate.rs`: `read_chunks`) -/

inductive ChunksResult where
  | ok (chunks : List Chunk)
  | ioError
  | invalidData
deriving DecidableEq, Repr

/-- The `iter::from_fn(..).take_while(..)` pipeline inside `read_chunks`:
chunks are collected while `Chunk::read` yields `Ok` of a non-`IEND` chunk.
The first `Err` (or the `IEND` chunk) stops the iteration, and — because
`take_while` drops the failing element — an `Err` is silently discarded.
`fuel` only bounds the recursion; each successful `Chunk::read` consumes at
least 12 bytes, so `bytes.length + 1` never runs out. -/
def chunksLoop : Nat → Reader → List Chunk
  | 0, _ => []
  | fuel + 1, r =>
    match Chunk.read r with
    | .ok c r1 => if c.kind = IENDb then [] else c :: chunksLoop fuel r1
    | _ => []

/-- `read_chunks`: check the 8-byte signature, then collect chunks and append
the synthetic `IEND` chunk added by `.chain(iter::once(Ok(..)))`. -/
def read_chunks (r : Reader) : ChunksResult :=
  match r.readExact 8 with
  | none => .ioError
  | some (sig, r) =>
    if sig ≠ PNG_SIG then .invalidData
    else .ok (chunksLoop (r.bytes.length + 1) r ++ [⟨IENDb, []⟩])

/-! ## Chunk stream bridge (`src/intermediate/chunk_reader.rs`) -/

/-- `INITIAL_CRC`: the running CRC state after feeding the 4 bytes `IDAT`
into the all-ones initial state. -/
def INITIAL_CRC : Nat := 3394304481

/-- `ChunkReader` state. `source` is the unread suffix of the underlying byte
source (the reader only ever consumes it from the front). -/
structure ChunkReader where
  source : List Nat
  leftover : Nat
  crc : Nat
deriving DecidableEq, Repr

inductive NewResult where
  | ok (s : ChunkReader)
  | ioError
  | invalidData
  | panic
deriving DecidableEq, Repr

/-- `ChunkReader::new`: read one chunk header (length + kind) eagerly; the
kind must be `IDAT` (adopt its length) or `IEND` (length forced to 0); any
other kind is a `panic!`. (`ChunkKind::try_from` accepts every byte vector,
see `ChunkKind.tryFrom`, so its error branch is dead but kept.) -/
def ChunkReader.new (stream : List Nat) : NewResult :=
  if stream.length < 4 then .ioError
  else
    let len := beU32 (stream.take 4)
    if stream.length < 8 then .ioError
    else
      let kindB := (stream.drop 4).take 4
      match ChunkKind.tryFrom kindB with
      | none => .invalidData
      | some kind =>
        if kind = IDATb then .ok ⟨stream.drop 8, len, INITIAL_CRC⟩
        else if kind = IENDb then .ok ⟨stream.drop 8, 0, INITIAL_CRC⟩
        else .panic

inductive ReadResult where
  | ok (data : List Nat) (s : ChunkReader)
  | ioError
  | panic
  | fuelOut
deriving DecidableEq, Repr

/-- The code after the `while` loop in `ChunkReader::read`: update the CRC
over the remaining content bytes `buf[used..bc]` and do
`self.leftover -= bc - used` (a `usize` subtraction, which panics in debug
builds when `bc - used > leftover`), then return `Ok(bc)`. -/
def readFinish (buf : List Nat) (used leftover crc : Nat) (src : List Nat) : ReadResult :=
  let bc := buf.length
  if leftover < bc - used then .panic
  else .ok buf ⟨src, leftover - (bc - used), List.foldl crcUpdate crc (buf.drop used)⟩

/-- The `while self.leftover != 0 && bc - used >= self.leftover` loop of
`ChunkReader::read`. The buffer is modelled as the list of its first `bc`
bytes: the source's `rotate_left` moves the 12 boundary bytes past the new
`bc` (and zero-fills), so the live prefix after an iteration is exactly
`buf[..cb_start] ++ buf[cb_end..bc]`. `fuel` only bounds the recursion: each
iteration consumes `leftover ≥ 1` bytes of the buffer, so `buf.length + 1`
iterations never occur. -/
def readLoop : Nat → List Nat → Nat → Nat → Nat → List Nat → ReadResult
  | 0, _, _, _, _, _ => .fuelOut
  | fuel + 1, buf, used, leftover, crc, src =>
    if leftover ≠ 0 ∧ leftover ≤ buf.length - used then
      let bc := buf.length
      let cbStart := leftover + used
      let cbEnd := min (cbStart + 12) bc
      let toRead := 12 - (bc - cbStart)
      -- `read_exact` for the part of the 12-byte boundary not already in `buf`
      if src.length < toRead then .ioError
      else
        let bound := (buf.drop cbStart).take (cbEnd - cbStart) ++ src.take toRead
        let src1 := src.drop toRead
        let buf1 := buf.take cbStart ++ buf.drop cbEnd
        let crc1 := List.foldl crcUpdate crc ((buf.drop used).take (cbStart - used))
        let found := beU32 (bound.take 4)
        if found ≠ crc1 ^^^ M32 then .ioError
        else
          let used1 := used + leftover
          let leftover1 := beU32 ((bound.drop 4).take 4)
          -- `ChunkKind::try_from` accepts any bytes (see C4); match the raw kind
          let kindB := (bound.drop 8).take 4
          if kindB = IDATb then readLoop fuel buf1 used1 leftover1 INITIAL_CRC src1
          else if kindB = IENDb then
            -- leftover forced to 0 and `bc = used` truncates the buffer;
            -- the loop condition then fails and the tail code runs
            readFinish (buf1.take used1) used1 0 INITIAL_CRC src1
          else .panic
    else readFinish buf used leftover crc src

/-- `ChunkReader::read` with a caller buffer of `n` bytes. The underlying
slice-backed source fills `min n source.length` bytes. -/
def ChunkReader.read (s : ChunkReader) (n : Nat) : ReadResult :=
  if s.leftover = 0 then .ok [] s
  else
    let bc := min n s.source.length
    readLoop (bc + 1) (s.source.take bc) 0 s.leftover s.crc (s.source.drop bc)

inductive AllResult where
  | ok (data : List Nat)
  | ioError
  | panic
  | fuelOut
deriving DecidableEq, Repr

/-- Reading a `ChunkReader` to exhaustion with an `n`-byte caller buffer
(`read_to_end` semantics: stop at the first `Ok(0)`). -/
def readAllGo : Nat → ChunkReader → Nat → AllResult
  | 0, _, _ => .fuelOut
  | fuel + 1, s, n =>
    match s.read n with
    | .ok [] _ => .ok []
    | .ok data s1 =>
      match readAllGo fuel s1 n with
      | .ok rest => .ok (data ++ rest)
      | r => r
    | .ioError => .ioError
    | .panic => .panic
    | .fuelOut => .fuelOut

/-- Read to exhaustion; every read that returns data consumes at least one
source byte, so `source.length + 1` rounds suffice. -/
def readAll (s : ChunkReader) (n : Nat) : AllResult :=
  readAllGo (s.source.length + 1) s n

/-- The serialized form of one chunk:
`u32 length | 4-byte kind | data | u32 crc`. -/
def chunkBytes (kind data : List Nat) : List Nat :=
  beBytes4 data.length ++ kind ++ data ++ beBytes4 (chunkCrc kind data)

/-- A chunk stream: a run of `IDAT` chunks with the given payloads, terminated
by an `IEND` chunk, every chunk carrying its correct CRC. -/
def idatStream (chunks : List (List Nat)) : List Nat :=
  (chunks.map (chunkBytes IDATb)).flatten ++ chunkBytes IENDb []

/-! ## Filter methods and filter types (`src/intermediate/filter.rs`) -/

inductive Filter where
  | Zero
deriving DecidableEq, Repr

/-- `Filter::try_from(u8)`: only filter method 0 is supported. -/
def Filter.tryFrom (value : Nat) : Option Filter :=
  match value with
  | 0 => some .Zero
  | _ => none

inductive FilterKind where
  | None
  | Sub
  | Up
  | Average
  | Paeth
deriving DecidableEq, Repr

/-- `FilterKind::try_from(u8)`. -/
def FilterKind.tryFrom (value : Nat) : Option FilterKind :=
  match value with
  | 0 => some .None
  | 1 => some .Sub
  | 2 => some .Up
  | 3 => some .Average
  | 4 => some .Paeth
  | _ => none

/-! ## `PngParser` (`src/parser.rs`) -/

structure PngParserState where
  /-- The `ChunkReader` the `ZlibDecoder` is layered over. -/
  reader : ChunkReader
  width : Nat
  height : Nat
  color : PngColor
  interlace_method : Nat
  filter : Filter
  compression_method : Nat
deriving DecidableEq, Repr

inductive ParserNewResult where
  | ok (p : PngParserState)
  | ioError
  | invalidData
  | panic
  | fuelOut
deriving DecidableEq, Repr

/-- The peek in `PngParser::new`: `seek_relative(4)` (skip the length field),
`read_exact` of the 4 kind bytes, `seek_relative(-8)` back. The seek itself
never fails; a short read surfaces from `read_exact`. -/
def peekKind (r : Reader) : Option (List Nat × Reader) :=
  match Reader.readExact ⟨r.bytes, r.pos + 4⟩ 4 with
  | none => none
  | some (kindB, r1) => some (kindB, ⟨r1.bytes, r1.pos - 8⟩)

inductive SkipResult where
  | ok (r : Reader)
  | ioError
  | invalidData
  | panic
  | fuelOut
deriving DecidableEq, Repr

/-- The `while chunk_kind != intermediate::IDAT` loop of `PngParser::new`:
peek the next chunk kind; if it is not `IDAT`, run
`assert!(chunk_kind.critical())` (a panic when the peeked chunk is NOT
critical), discard the chunk via `Chunk::read`, and repeat. `fuel` only bounds
the recursion (each discarded chunk consumes at least 12 bytes). -/
def skipToIdat : Nat → Reader → SkipResult
  | 0, _ => .fuelOut
  | fuel + 1, r =>
    match peekKind r with
    | none => .ioError
    | some (kindB, r) =>
      match ChunkKind.tryFrom kindB with
      | none => .invalidData
      | some kind =>
        if kind = IDATb then .ok r
        else if ¬ChunkKind.critical kind then .panic
        else
          match Chunk.read r with
          | .ioError => .ioError
          | .invalidData => .invalidData
          | .ok _ r1 => skipToIdat fuel r1

/-- `PngParser::new`: signature check, `IHDR` chunk read and field validation
(width and height are extracted but never compared against 0; compression
method is checked by `assert!`, i.e. a panic rather than an error), then the
chunk-skipping loop and `ChunkReader::new` over the remaining source. -/
def PngParser.new (r : Reader) : ParserNewResult :=
  match r.readExact 8 with
  | none => .ioError
  | some (sig, r) =>
    if sig ≠ PNG_SIG then .invalidData
    else
      match Chunk.read r with
      | .ioError => .ioError
      | .invalidData => .invalidData
      | .ok header r =>
        if header.kind ≠ IHDRb ∨ header.data.length ≠ 13 then .invalidData
        else
          let width := beU32 (header.data.take 4)
          let height := beU32 ((header.data.drop 4).take 4)
          let bit_depth := header.data.getD 8 0
          match ColorKind.tryFrom (header.data.getD 9 0) with
          | none => .invalidData
          | some color_kind =>
            match PngColor.new color_kind bit_depth with
            | none => .invalidData
            | some color =>
              let interlace_method := header.data.getD 12 0
              match Filter.tryFrom (header.data.getD 11 0) with
              | none => .invalidData
              | some filter =>
                let compression_method := header.data.getD 10 0
                if compression_method ≠ 0 then .panic
                else
                  match skipToIdat (r.bytes.length + 1) r with
                  | .ioError => .ioError
                  | .invalidData => .invalidData
                  | .panic => .panic
                  | .fuelOut => .fuelOut
                  | .ok r =>
                    match ChunkReader.new (r.bytes.drop r.pos) with
                    | .ioError => .ioError
                    | .invalidData => .invalidData
                    | .panic => .panic
                    | .ok cr =>
                      .ok ⟨cr, width, height, color, interlace_method, filter, compression_method⟩

/-- The decoded image (`src/lib.rs`: `Png`). -/
structure Png where
  height : Nat
  width : Nat
  pixels : List Color
deriving DecidableEq, Repr

inductive ParseResult where
  | ok (png : Png)
  | ioError
  | invalidData
  | panic
deriving DecidableEq, Repr

/-- The row loop of `PngParser::parse`, consuming `height` rows of
`scanline_length` bytes from the decompressed stream. Each row: split off the
filter-type byte, `FilterKind::try_from` it (error on an unknown value),
`assert_eq!` it to `FilterKind::None` (panic otherwise), unpack the row via
`PngColor::parse` and keep the first `width` colors (a panic when fewer than
`width` colors were produced). The `prev`/`line` swap of the source is dead
state (never read) and is omitted. After the last row the source reaches
`todo!()` and panics: `parse` never returns a `Png`. -/
def parseRows (color : PngColor) (width slen : Nat) : Nat → List Nat → List Color → ParseResult
  | 0, _, _ => .panic
  | h + 1, stream, pixels =>
    if stream.length < slen then .ioError
    else
      match stream.take slen with
      | [] => .panic
      | filterByte :: data =>
        match FilterKind.tryFrom filterByte with
        | none => .invalidData
        | some fk =>
          if fk ≠ FilterKind.None then .panic
          else
            match color.parse data with
            | none => .panic
            | some colors =>
              if colors.length < width then .panic
              else parseRows color width slen h (stream.drop slen) (pixels ++ colors.take width)

/-- `PngParser::parse`, with the `ZlibDecoder` modelled from the spec as a
black-box byte-stream transform: `decompressed` stands for the byte stream
the decompressor yields when reading the parser's `ChunkReader`. -/
def PngParser.parse (p : PngParserState) (decompressed : List Nat) : ParseResult :=
  parseRows p.color p.width (scanline_length p.width p.color) p.height decompressed []

/-! ## Concrete byte sources used by the theorems -/

/-- The IHDR payload of a minimal 1×1 true-color image: width 1, height 1,
bit depth 8, color type 2 (truecolor), compression 0, filter 0, interlace 0. -/
def ihdr1x1True : List Nat := [0, 0, 0, 1, 0, 0, 0, 1, 8, 2, 0, 0, 0]

/-- The zlib stream (one stored deflate block) whose decompressed form is the
single scanline `[0, 0, 0, 0]`: filter byte 0 followed by the three 8-bit
channel bytes of one opaque-black pixel. -/
def zlibTiny : List Nat :=
  [0x78, 0x01, 0x01, 0x04, 0x00, 0xfb, 0xff, 0, 0, 0, 0, 0x00, 0x04, 0x00, 0x01]

/-- A well-formed minimal 1×1 opaque-black true-color PNG byte source. -/
def tinyTruePng : List Nat :=
  PNG_SIG ++ chunkBytes IHDRb ihdr1x1True ++ chunkBytes IDATb zlibTiny ++ chunkBytes IENDb []

/-- The parser state `PngParser::new` produces for `tinyTruePng`. -/
def tinyTrueState : PngParserState :=
  ⟨⟨zlibTiny ++ beBytes4 (chunkCrc IDATb zlibTiny) ++ chunkBytes IENDb [], 15, INITIAL_CRC⟩,
    1, 1, ⟨.True false, 8⟩, 0, .Zero, 0⟩

/-- An IHDR payload with width 0 (height 1, greyscale, depth 8, methods 0). -/
def ihdrW0 : List Nat := [0, 0, 0, 0, 0, 0, 0, 1, 8, 0, 0, 0, 0]

/-- A byte source whose header declares width 0, otherwise well-formed. -/
def zeroWidthPng : List Nat :=
  PNG_SIG ++ chunkBytes IHDRb ihdrW0 ++ chunkBytes IDATb [] ++ chunkBytes IENDb []

/-- The parser state `PngParser::new` produces for `zeroWidthPng`. -/
def zeroWidthState : PngParserState :=
  ⟨⟨beBytes4 (chunkCrc IDATb []) ++ chunkBytes IENDb [], 0, INITIAL_CRC⟩,
    0, 1, ⟨.Grey false, 8⟩, 0, .Zero, 0⟩

/-- A 1×1 greyscale depth-8 IHDR payload. -/
def ihdr1x1Grey : List Nat := [0, 0, 0, 1, 0, 0, 0, 1, 8, 0, 0, 0, 0]

/-- The bytes of the ancillary (non-critical) chunk kind `tEXt`. -/
def tEXtb : List Nat := [116, 69, 88, 116]

/-- A byte source with a correct-CRC ancillary `tEXt` chunk between the
header and the first `IDAT` chunk. -/
def ancillaryPng : List Nat :=
  PNG_SIG ++ chunkBytes IHDRb ihdr1x1Grey ++ chunkBytes tEXtb [65]
    ++ chunkBytes IDATb [] ++ chunkBytes IENDb []

/-- A byte source with a correct-CRC critical-but-unrecognized chunk `ABCD`
between the header and the first `IDAT` chunk. -/
def criticalUnknownPng : List Nat :=
  PNG_SIG ++ chunkBytes IHDRb ihdr1x1Grey ++ chunkBytes [65, 66, 67, 68] [65]
    ++ chunkBytes IDATb [] ++ chunkBytes IENDb []

/-- The parser state `PngParser::new` produces for `criticalUnknownPng`
(the unrecognized critical chunk was silently discarded). -/
def criticalUnknownState : PngParserState :=
  ⟨⟨beBytes4 (chunkCrc IDATb []) ++ chunkBytes IENDb [], 0, INITIAL_CRC⟩,
    1, 1, ⟨.Grey false, 8⟩, 0, .Zero, 0⟩

/-- The 1×1 depth-1 greyscale IHDR payload of the source's `TINY_PNG` test
vector. -/
def tinyGreyHeader : List Nat := [0, 0, 0, 1, 0, 0, 0, 1, 1, 0, 0, 0, 0]

/-- The IDAT payload of the source's `TINY_PNG` test vector. -/
def idatTinyData : List Nat := [0x78, 0x01, 0x63, 0x60, 0x00, 0x00, 0x00, 0x02, 0x00, 0x01]

/-- The source's `TINY_PNG` test vector with the last byte of the IDAT
chunk's CRC field corrupted from `0x18` to `0x19` (the correct CRC of this
chunk is `0x73750118`). -/
def corruptTiny : List Nat :=
  PNG_SIG ++ chunkBytes IHDRb tinyGreyHeader
    ++ (beBytes4 10 ++ IDATb ++ idatTinyData ++ [0x73, 0x75, 0x01, 0x19])
    ++ chunkBytes IENDb []

/-- The claim-side allowed bit-depth sets: Grey without alpha allows
{1,2,4,8,16}; GreyAlpha, True and TrueAlpha allow {8,16}; Indexed allows
{1,2,4,8}. -/
def allowedDepthsSpec : ColorKind → List Nat
  | .Grey false => [1, 2, 4, 8, 16]
  | .Grey true | .True _ => [8, 16]
  | .Indexed => [1, 2, 4, 8]

/-- The 10-byte IDAT payload of the source's `MULTI_CHUNK` test vector. -/
def d10 : List Nat := [0x78, 0x01, 0x63, 0x60, 0x00, 0x00, 0x00, 0x02, 0x00, 0x01]

/-- A chunk stream with a zero-length `IDAT` chunk between two 2-byte `IDAT`
chunks, every chunk carrying its correct CRC. -/
def zeroLenStream : List Nat := idatStream [[97, 98], [], [99, 100]]

/-- The reader state `ChunkReader::new` produces on `zeroLenStream`. -/
def zeroLenReader : ChunkReader := ⟨zeroLenStream.drop 8, 2, INITIAL_CRC⟩

/-- Hypotheses on the payloads of an `IDAT` run: every chunk is nonempty and
its length fits the `u32` length field. -/
def streamOk (queue : List (List Nat)) : Prop :=
  ∀ d ∈ queue, d ≠ [] ∧ d.length < 2 ^ 32

/-- The bridge invariant: reader state `s` still has to deliver exactly the
content bytes `rem`. Either the bridge is done (`leftover = 0`), or `rem`
splits into the rest `dRest` of the current chunk followed by the payloads of
the queued chunks, with the source positioned inside the current chunk's data
and the running CRC consistent with the current chunk's stored CRC field. -/
def Inv (s : ChunkReader) (rem : List Nat) : Prop :=
  (rem = [] ∧ s.leftover = 0) ∨
  ∃ dRest queue, dRest ≠ [] ∧ streamOk queue ∧ s.crc < 2 ^ 32 ∧
    rem = dRest ++ queue.flatten ∧ s.leftover = dRest.length ∧
    s.source = dRest ++ (beBytes4 (List.foldl crcUpdate s.crc dRest ^^^ M32)
      ++ idatStream queue)

/-! ## Claim theorems -/

set_option maxRecDepth 100000

/-! ## Helper lemmas for the chunk stream bridge proof -/

theorem crcStep_lt {c : Nat} (h : c < 2 ^ 32) : crcStep c < 2 ^ 32 := by
  unfold crcStep
  have h1 : c >>> 1 < 2 ^ 32 := by
    rw [Nat.shiftRight_eq_div_pow]
    omega
  split
  · exact Nat.xor_lt_two_pow (by norm_num) h1
  · exact h1

theorem crcTable_lt {n : Nat} (h : n < 2 ^ 32) : crcTable n < 2 ^ 32 := by
  have key : ∀ k m, m < 2 ^ 32 → crcStep^[k] m < 2 ^ 32 := by
    intro k
    induction k with
    | zero => intro m hm; simpa using hm
    | succ k ih =>
      intro m hm
      rw [Function.iterate_succ_apply]
      exact ih _ (crcStep_lt hm)
  exact key 8 n h

theorem and255_eq_mod (m : Nat) : m &&& 255 = m % 256 := by
  have := Nat.and_pow_two_sub_one_eq_mod m 8
  simpa using this

theorem crcUpdate_lt {crc : Nat} (h : crc < 2 ^ 32) (b : Nat) : crcUpdate crc b < 2 ^ 32 := by
  unfold crcUpdate
  apply Nat.xor_lt_two_pow
  · apply crcTable_lt
    rw [and255_eq_mod]
    omega
  · rw [Nat.shiftRight_eq_div_pow]
    omega

theorem foldl_crcUpdate_lt {crc : Nat} (h : crc < 2 ^ 32) (l : List Nat) :
    List.foldl crcUpdate crc l < 2 ^ 32 := by
  induction l generalizing crc with
  | nil => simpa using h
  | cons b l ih => exact ih (crcUpdate_lt h b)

theorem M32_lt : M32 < 2 ^ 32 := by decide

theorem INITIAL_CRC_lt : INITIAL_CRC < 2 ^ 32 := by decide

theorem beU32_beBytes4 {n : Nat} (h : n < 2 ^ 32) : beU32 (beBytes4 n) = n := by
  unfold beU32 beBytes4
  simp only [List.foldl]
  rw [and255_eq_mod, and255_eq_mod, and255_eq_mod, and255_eq_mod,
    Nat.shiftRight_eq_div_pow, Nat.shiftRight_eq_div_pow, Nat.shiftRight_eq_div_pow]
  omega

theorem chunkCrc_idat (d : List Nat) :
    chunkCrc IDATb d = List.foldl crcUpdate INITIAL_CRC d ^^^ M32 := by
  unfold chunkCrc
  have h : List.foldl crcUpdate M32 IDATb = INITIAL_CRC := by decide
  rw [h]

theorem chunkCrc_lt (kind data : List Nat) : chunkCrc kind data < 2 ^ 32 := by
  unfold chunkCrc
  exact Nat.xor_lt_two_pow (foldl_crcUpdate_lt (foldl_crcUpdate_lt M32_lt kind) data) M32_lt

theorem beBytes4_length (n : Nat) : (beBytes4 n).length = 4 := rfl

theorem chunkBytes_length (kind data : List Nat) :
    (chunkBytes kind data).length = 8 + kind.length + data.length := by
  simp [chunkBytes, beBytes4]
  omega

theorem idatStream_cons (d : List Nat) (q : List (List Nat)) :
    idatStream (d :: q) = chunkBytes IDATb d ++ idatStream q := by
  simp [idatStream]

theorem idatStream_length_ge (q : List (List Nat)) : 12 ≤ (idatStream q).length := by
  unfold idatStream
  rw [List.length_append, chunkBytes_length]
  simp [IENDb]

theorem take_append_add (a b : List Nat) (k : Nat) :
    (a ++ b).take (a.length + k) = a ++ b.take k := by
  rw [List.take_append_eq_append_take, List.take_of_length_le (by omega),
    Nat.add_sub_cancel_left]

theorem drop_append_add (a b : List Nat) (k : Nat) :
    (a ++ b).drop (a.length + k) = b.drop k := by
  rw [List.drop_append_eq_append_drop, List.drop_eq_nil_of_le (by omega),
    Nat.add_sub_cancel_left, List.nil_append]

theorem append_split_of_le {p s d x : List Nat} (h : p ++ s = d ++ x)
    (hle : d.length ≤ p.length) :
    p.take d.length = d ∧ p.drop d.length ++ s = x := by
  constructor
  · have e := congrArg (List.take d.length) h
    rwa [List.take_append_eq_append_take, List.take_append_eq_append_take,
      Nat.sub_self, List.take_zero, List.append_nil, List.take_length,
      Nat.sub_eq_zero_of_le hle, List.take_zero, List.append_nil] at e
  · have e := congrArg (List.drop d.length) h
    rwa [List.drop_append_eq_append_drop, List.drop_append_eq_append_drop,
      Nat.sub_self, List.drop_zero, List.drop_length, List.nil_append,
      Nat.sub_eq_zero_of_le hle, List.drop_zero] at e



theorem readLoop_noIter
    (queue : List (List Nat)) (fuel : Nat) (buf : List Nat) (used : Nat)
    (dRest : List Nat) (crc : Nat) (src : List Nat)
    (hq : streamOk queue) (hd : dRest ≠ []) (hcrc : crc < 2 ^ 32)
    (husc : used ≤ buf.length) (hbc : 1 ≤ buf.length)
    (hkey : buf.drop used ++ src =
      dRest ++ (beBytes4 (List.foldl crcUpdate crc dRest ^^^ M32) ++ idatStream queue))
    (hstop : buf.length - used < dRest.length) (hfuel : 1 ≤ fuel) :
    ∃ (k : Nat) (s1 : ChunkReader),
      readLoop fuel buf used dRest.length crc src =
        .ok (buf.take used ++ (dRest ++ queue.flatten).take k) s1 ∧
      1 ≤ used + k ∧ k ≤ (dRest ++ queue.flatten).length ∧
      Inv s1 ((dRest ++ queue.flatten).drop k) ∧
      s1.source.length ≤ src.length := by
  obtain ⟨f, rfl⟩ : ∃ f, fuel = f + 1 := ⟨fuel - 1, by omega⟩
  have hL : 1 ≤ dRest.length := List.length_pos.mpr hd
  have hpendlen : (buf.drop used).length = buf.length - used := by simp
  obtain ⟨h1, h2⟩ := append_split_of_le hkey.symm (by omega)
  rw [hpendlen] at h1 h2
  refine ⟨buf.length - used,
    ⟨src, dRest.length - (buf.length - used),
      List.foldl crcUpdate crc (buf.drop used)⟩, ?_, by omega, ?_, ?_, le_refl _⟩
  · simp only [readLoop]
    rw [if_neg (by omega)]
    simp only [readFinish]
    rw [if_neg (by omega)]
    have h3 : (dRest ++ queue.flatten).take (buf.length - used) =
        dRest.take (buf.length - used) := by
      rw [List.take_append_eq_append_take, Nat.sub_eq_zero_of_le (le_of_lt hstop),
        List.take_zero, List.append_nil]
    rw [h3, h1, List.take_append_drop]
  · rw [List.length_append]
    omega
  · refine Or.inr ⟨dRest.drop (buf.length - used), queue,
      List.length_pos.mp (by rw [List.length_drop]; omega), hq,
      foldl_crcUpdate_lt hcrc _, ?_, by simp, ?_⟩
    · rw [List.drop_append_eq_append_drop, Nat.sub_eq_zero_of_le (le_of_lt hstop),
        List.drop_zero]
    · have h4 : List.foldl crcUpdate (List.foldl crcUpdate crc (buf.drop used))
          (dRest.drop (buf.length - used)) = List.foldl crcUpdate crc dRest := by
        rw [← h1, ← List.foldl_append, List.take_append_drop]
      show src = _
      rw [h4]
      exact h2.symm



theorem take_min (l : List Nat) (n : Nat) : l.take (min n l.length) = l.take n := by
  rcases Nat.le_total n l.length with h | h
  · rw [Nat.min_eq_left h]
  · rw [Nat.min_eq_right h, List.take_length, List.take_of_length_le h]

theorem drop_min (l : List Nat) (n : Nat) : l.drop (min n l.length) = l.drop n := by
  rcases Nat.le_total n l.length with h | h
  · rw [Nat.min_eq_left h]
  · rw [Nat.min_eq_right h, List.drop_length, List.drop_eq_nil_of_le h]

theorem idatStream_cons' (d : List Nat) (q : List (List Nat)) :
    idatStream (d :: q) =
      beBytes4 d.length ++ (IDATb ++ (d ++
        (beBytes4 (List.foldl crcUpdate INITIAL_CRC d ^^^ M32) ++ idatStream q))) := by
  rw [idatStream_cons]
  simp [chunkBytes, chunkCrc_idat, List.append_assoc]

theorem readLoop_iter
    (d : List Nat) (q : List (List Nat)) (f : Nat) (buf : List Nat) (used : Nat)
    (dRest : List Nat) (crc : Nat) (src : List Nat)
    (hq : streamOk (d :: q)) (hd : dRest ≠ []) (hcrc : crc < 2 ^ 32)
    (husc : used ≤ buf.length) (hbc : 1 ≤ buf.length)
    (hkey : buf.drop used ++ src =
      dRest ++ (beBytes4 (List.foldl crcUpdate crc dRest ^^^ M32) ++ idatStream (d :: q)))
    (hgo : dRest.length ≤ buf.length - used) (hfuel : buf.length - used < f + 1) :
    ∃ (buf1 : List Nat) (src1 : List Nat),
      readLoop (f + 1) buf used dRest.length crc src =
        readLoop f buf1 (used + dRest.length) d.length INITIAL_CRC src1 ∧
      buf1.take (used + dRest.length) = buf.take used ++ dRest ∧
      used + dRest.length ≤ buf1.length ∧ 1 ≤ buf1.length ∧
      buf1.drop (used + dRest.length) ++ src1 =
        d ++ (beBytes4 (List.foldl crcUpdate INITIAL_CRC d ^^^ M32) ++ idatStream q) ∧
      buf1.length - (used + dRest.length) < f ∧
      src1.length ≤ src.length := by
  have hL : 1 ≤ dRest.length := List.length_pos.mpr hd
  have hdl : (buf.drop used).length = buf.length - used := by simp
  set X := List.foldl crcUpdate crc dRest ^^^ M32 with hXdef
  have hXlt : X < 2 ^ 32 := Nat.xor_lt_two_pow (foldl_crcUpdate_lt hcrc _) M32_lt
  obtain ⟨h1, h2⟩ := append_split_of_le hkey (by omega)
  have hA : buf.drop (dRest.length + used) = (buf.drop used).drop dRest.length := by
    rw [List.drop_drop, Nat.add_comm]
  have h2A : buf.drop (dRest.length + used) ++ src =
      beBytes4 X ++ idatStream (d :: q) := by rw [hA]; exact h2
  have hAlen : (buf.drop (dRest.length + used)).length =
      buf.length - (dRest.length + used) := by simp
  have hlen16 : 16 ≤ (beBytes4 X ++ idatStream (d :: q)).length := by
    rw [List.length_append, beBytes4_length]
    have := idatStream_length_ge (d :: q)
    omega
  have hlensum : (buf.drop (dRest.length + used)).length + src.length =
      (beBytes4 X ++ idatStream (d :: q)).length := by
    rw [← List.length_append, h2A]
  have hdlen : d.length < 2 ^ 32 := (hq d (List.mem_cons_self d q)).2
  -- the 12 boundary bytes: current CRC field, next length field, next kind
  have hbound : (buf.drop (dRest.length + used)).take
        (min 12 (buf.length - (dRest.length + used))) ++
        src.take (12 - (buf.length - (dRest.length + used))) =
      beBytes4 X ++ (beBytes4 d.length ++ IDATb) := by
    rw [← hAlen, take_min, ← List.take_append_eq_append_take, h2A, idatStream_cons']
    rfl
  -- what remains of buffer and source past the boundary region
  have hrest : buf.drop (min (dRest.length + used + 12) buf.length) ++
      src.drop (12 - (buf.length - (dRest.length + used))) =
      d ++ (beBytes4 (List.foldl crcUpdate INITIAL_CRC d ^^^ M32) ++ idatStream q) := by
    rw [show min (dRest.length + used + 12) buf.length =
      (dRest.length + used) + min 12 (buf.length - (dRest.length + used)) from by omega]
    rw [← List.drop_drop, ← hAlen, drop_min, ← List.drop_append_eq_append_drop, h2A,
      idatStream_cons']
    rfl
  refine ⟨buf.take (dRest.length + used) ++ buf.drop (min (dRest.length + used + 12) buf.length),
    src.drop (12 - (buf.length - (dRest.length + used))), ?_, ?_, ?_, ?_, ?_, ?_, ?_⟩
  · simp only [readLoop]
    rw [if_pos (by constructor <;> omega : dRest.length ≠ 0 ∧
      dRest.length ≤ buf.length - used)]
    rw [if_neg (by omega : ¬src.length < 12 - (buf.length - (dRest.length + used)))]
    rw [show min (dRest.length + used + 12) buf.length - (dRest.length + used) =
      min 12 (buf.length - (dRest.length + used)) from by omega]
    rw [hbound]
    rw [show dRest.length + used - used = dRest.length from by omega, h1]
    rw [show (beBytes4 X ++ (beBytes4 d.length ++ IDATb)).take 4 = beBytes4 X from rfl]
    rw [beU32_beBytes4 hXlt]
    rw [if_neg (fun hc => hc rfl)]
    rw [show ((beBytes4 X ++ (beBytes4 d.length ++ IDATb)).drop 8).take 4 = IDATb from rfl]
    rw [if_pos rfl]
    rw [show ((beBytes4 X ++ (beBytes4 d.length ++ IDATb)).drop 4).take 4 =
        beBytes4 d.length from rfl]
    rw [beU32_beBytes4 hdlen]
  · rw [show used + dRest.length = (buf.take (dRest.length + used)).length from by
      rw [List.length_take]; omega]
    rw [List.take_left]
    rw [Nat.add_comm dRest.length used, List.take_add, h1]
  · rw [List.length_append, List.length_take]
    omega
  · rw [List.length_append, List.length_take]
    omega
  · rw [show used + dRest.length = (buf.take (dRest.length + used)).length from by
      rw [List.length_take]; omega]
    rw [List.drop_left]
    exact hrest
  · rw [List.length_append, List.length_take, List.length_drop]
    omega
  · rw [List.length_drop]
    omega



theorem readLoop_iend
    (f : Nat) (buf : List Nat) (used : Nat)
    (dRest : List Nat) (crc : Nat) (src : List Nat)
    (hd : dRest ≠ []) (hcrc : crc < 2 ^ 32)
    (husc : used ≤ buf.length) (_hbc : 1 ≤ buf.length)
    (hkey : buf.drop used ++ src =
      dRest ++ (beBytes4 (List.foldl crcUpdate crc dRest ^^^ M32) ++ idatStream []))
    (hgo : dRest.length ≤ buf.length - used) :
    ∃ src1 : List Nat,
      readLoop (f + 1) buf used dRest.length crc src =
        .ok (buf.take used ++ dRest) ⟨src1, 0, INITIAL_CRC⟩ ∧
      src1.length ≤ src.length := by
  have hL : 1 ≤ dRest.length := List.length_pos.mpr hd
  have hdl : (buf.drop used).length = buf.length - used := by simp
  set X := List.foldl crcUpdate crc dRest ^^^ M32 with hXdef
  have hXlt : X < 2 ^ 32 := Nat.xor_lt_two_pow (foldl_crcUpdate_lt hcrc _) M32_lt
  obtain ⟨h1, h2⟩ := append_split_of_le hkey (by omega)
  have hA : buf.drop (dRest.length + used) = (buf.drop used).drop dRest.length := by
    rw [List.drop_drop, Nat.add_comm]
  have h2A : buf.drop (dRest.length + used) ++ src =
      beBytes4 X ++ idatStream [] := by rw [hA]; exact h2
  have hAlen : (buf.drop (dRest.length + used)).length =
      buf.length - (dRest.length + used) := by simp
  have hlen16 : 16 ≤ (beBytes4 X ++ idatStream []).length := by
    rw [List.length_append, beBytes4_length]
    have := idatStream_length_ge ([] : List (List Nat))
    omega
  have hlensum : (buf.drop (dRest.length + used)).length + src.length =
      (beBytes4 X ++ idatStream []).length := by
    rw [← List.length_append, h2A]
  have hbound : (buf.drop (dRest.length + used)).take
        (min 12 (buf.length - (dRest.length + used))) ++
        src.take (12 - (buf.length - (dRest.length + used))) =
      beBytes4 X ++ ([0, 0, 0, 0] ++ IENDb) := by
    rw [← hAlen, take_min, ← List.take_append_eq_append_take, h2A]
    rfl
  have hb1len : used + dRest.length ≤
      (buf.take (dRest.length + used) ++ buf.drop (min (dRest.length + used + 12) buf.length)).length := by
    rw [List.length_append, List.length_take]
    omega
  have htk : (buf.take (dRest.length + used) ++
        buf.drop (min (dRest.length + used + 12) buf.length)).take (used + dRest.length) =
      buf.take used ++ dRest := by
    rw [show used + dRest.length = (buf.take (dRest.length + used)).length from by
      rw [List.length_take]; omega]
    rw [List.take_left]
    rw [Nat.add_comm dRest.length used, List.take_add, h1]
  refine ⟨src.drop (12 - (buf.length - (dRest.length + used))), ?_, by
    rw [List.length_drop]; omega⟩
  simp only [readLoop]
  rw [if_pos (by constructor <;> omega : dRest.length ≠ 0 ∧
    dRest.length ≤ buf.length - used)]
  rw [if_neg (by omega : ¬src.length < 12 - (buf.length - (dRest.length + used)))]
  rw [show min (dRest.length + used + 12) buf.length - (dRest.length + used) =
    min 12 (buf.length - (dRest.length + used)) from by omega]
  rw [hbound]
  rw [show dRest.length + used - used = dRest.length from by omega, h1]
  have e1 : (beBytes4 X ++ ([0, 0, 0, 0] ++ IENDb)).take 4 = beBytes4 X := rfl
  have e2 : ((beBytes4 X ++ ([0, 0, 0, 0] ++ IENDb)).drop 8).take 4 = IENDb := rfl
  rw [e1]
  rw [beU32_beBytes4 hXlt]
  rw [if_neg (fun hc => hc rfl)]
  rw [e2]
  rw [if_neg (by decide : ¬IENDb = IDATb)]
  rw [if_pos rfl]
  simp only [readFinish]
  rw [if_neg (by rw [List.length_take]; omega :
    ¬0 < ((buf.take (dRest.length + used) ++
      buf.drop (min (dRest.length + used + 12) buf.length)).take (used + dRest.length)).length
      - (used + dRest.length))]
  rw [htk]
  have hlen3 : (buf.take used ++ dRest).length = used + dRest.length := by
    rw [List.length_append, List.length_take]
    omega
  rw [show (buf.take used ++ dRest).drop (used + dRest.length) = [] from
    List.drop_eq_nil_of_le (le_of_eq hlen3)]
  rw [hlen3]
  simp



theorem readLoop_spec :
    ∀ (queue : List (List Nat)) (fuel : Nat) (buf : List Nat) (used : Nat)
      (dRest : List Nat) (crc : Nat) (src : List Nat),
      streamOk queue → dRest ≠ [] → crc < 2 ^ 32 →
      used ≤ buf.length → 1 ≤ buf.length →
      buf.drop used ++ src =
        dRest ++ (beBytes4 (List.foldl crcUpdate crc dRest ^^^ M32) ++ idatStream queue) →
      buf.length - used < fuel →
      ∃ (k : Nat) (s1 : ChunkReader),
        readLoop fuel buf used dRest.length crc src =
          .ok (buf.take used ++ (dRest ++ queue.flatten).take k) s1 ∧
        1 ≤ used + k ∧ k ≤ (dRest ++ queue.flatten).length ∧
        Inv s1 ((dRest ++ queue.flatten).drop k) ∧
        s1.source.length ≤ src.length := by
  intro queue
  induction queue with
  | nil =>
    intro fuel buf used dRest crc src hq hd hcrc husc hbc hkey hfuel
    by_cases hstop : buf.length - used < dRest.length
    · exact readLoop_noIter [] fuel buf used dRest crc src hq hd hcrc husc hbc hkey hstop
        (by omega)
    · obtain ⟨f, rfl⟩ : ∃ f, fuel = f + 1 := ⟨fuel - 1, by omega⟩
      obtain ⟨src1, heq, hle⟩ := readLoop_iend f buf used dRest crc src hd hcrc husc hbc
        hkey (by omega)
      have hL : 1 ≤ dRest.length := List.length_pos.mpr hd
      refine ⟨dRest.length, ⟨src1, 0, INITIAL_CRC⟩, ?_, by omega, ?_, ?_, hle⟩
      · rw [heq]
        have : (dRest ++ ([] : List (List Nat)).flatten).take dRest.length = dRest := by
          simp
        rw [this]
      · simp
      · have : (dRest ++ ([] : List (List Nat)).flatten).drop dRest.length = [] := by
          simp
        rw [this]
        exact Or.inl ⟨rfl, rfl⟩
  | cons d q ih =>
    intro fuel buf used dRest crc src hq hd hcrc husc hbc hkey hfuel
    by_cases hstop : buf.length - used < dRest.length
    · exact readLoop_noIter (d :: q) fuel buf used dRest crc src hq hd hcrc husc hbc hkey
        hstop (by omega)
    · obtain ⟨f, rfl⟩ : ∃ f, fuel = f + 1 := ⟨fuel - 1, by omega⟩
      obtain ⟨buf1, src1, heq, htake1, husc1, hbc1, hkey1, hfuel1, hsrc1⟩ :=
        readLoop_iter d q f buf used dRest crc src hq hd hcrc husc hbc hkey (by omega) hfuel
      have hq1 : streamOk q := fun x hx => hq x (List.mem_cons_of_mem d hx)
      have hd1 : d ≠ [] := (hq d (List.mem_cons_self d q)).1
      obtain ⟨k1, s1, hrun, hk1, hk2, hinv, hslen⟩ :=
        ih f buf1 (used + dRest.length) d INITIAL_CRC src1 hq1 hd1 INITIAL_CRC_lt
          husc1 hbc1 hkey1 hfuel1
      have hL : 1 ≤ dRest.length := List.length_pos.mpr hd
      refine ⟨dRest.length + k1, s1, ?_, by omega, ?_, ?_, le_trans hslen hsrc1⟩
      · rw [heq, hrun, htake1]
        rw [List.flatten_cons, take_append_add, List.append_assoc]
      · have hk2' := hk2
        rw [List.length_append] at hk2'
        rw [List.length_append, List.flatten_cons, List.length_append]
        omega
      · rw [List.flatten_cons, drop_append_add]
        exact hinv



theorem read_step (s : ChunkReader) (rem : List Nat) (n : Nat)
    (hInv : Inv s rem) (hrem : rem ≠ []) (hn : 1 ≤ n) :
    ∃ (k : Nat) (s1 : ChunkReader), 1 ≤ k ∧ s.read n = .ok (rem.take k) s1 ∧
      Inv s1 (rem.drop k) ∧ s1.source.length < s.source.length := by
  rcases hInv with ⟨hrem0, _⟩ | ⟨dRest, queue, hd, hq, hcrc, hremEq, hlo, hsrc⟩
  · exact absurd hrem0 hrem
  · have hL : 1 ≤ dRest.length := List.length_pos.mpr hd
    have hsrcLen : dRest.length + 16 ≤ s.source.length := by
      rw [hsrc, List.length_append, List.length_append, beBytes4_length]
      have := idatStream_length_ge queue
      omega
    have hbc1 : 1 ≤ min n s.source.length := by omega
    have htklen : (s.source.take (min n s.source.length)).length =
        min n s.source.length := by
      rw [List.length_take]
      omega
    obtain ⟨k, s1, hloop, hk, hkle, hinv, hslen⟩ :=
      readLoop_spec queue (min n s.source.length + 1)
        (s.source.take (min n s.source.length)) 0 dRest s.crc
        (s.source.drop (min n s.source.length)) hq hd hcrc (Nat.zero_le _)
        (by omega) (by rw [List.drop_zero, List.take_append_drop]; exact hsrc)
        (by omega)
    refine ⟨k, s1, by omega, ?_, ?_, ?_⟩
    · unfold ChunkReader.read
      rw [if_neg (by omega : ¬s.leftover = 0), hlo, hloop]
      rw [List.take_zero, List.nil_append, hremEq]
    · rw [hremEq]
      exact hinv
    · have : (s.source.drop (min n s.source.length)).length =
          s.source.length - min n s.source.length := by simp
      omega

theorem readAllGo_spec :
    ∀ (fuel : Nat) (s : ChunkReader) (rem : List Nat) (n : Nat),
      Inv s rem → s.source.length < fuel → 1 ≤ n →
      readAllGo fuel s n = .ok rem := by
  intro fuel
  induction fuel with
  | zero =>
    intro s rem n _ h _
    omega
  | succ f ih =>
    intro s rem n hInv hf hn
    by_cases hrem : rem = []
    · subst hrem
      rcases hInv with ⟨_, hlo⟩ | ⟨dRest, queue, hd, _, _, hremEq, _, _⟩
      · have hr : s.read n = .ok [] s := by
          unfold ChunkReader.read
          rw [if_pos hlo]
        simp only [readAllGo]
        rw [hr]
      · exact absurd (List.append_eq_nil.mp hremEq.symm).1 hd
    · obtain ⟨k, s1, hk, hread, hinv1, hlt⟩ := read_step s rem n hInv hrem hn
      obtain ⟨a, l, he⟩ : ∃ a l, rem.take k = a :: l := by
        cases e : rem.take k with
        | nil =>
          rw [List.take_eq_nil_iff] at e
          exfalso
          rcases e with e | e
          · omega
          · exact hrem e
        | cons a l => exact ⟨a, l, rfl⟩
      simp only [readAllGo]
      rw [hread, he]
      have hrec : readAllGo f s1 n = .ok (rem.drop k) := ih s1 (rem.drop k) n hinv1 (by omega) hn
      dsimp only
      rw [hrec]
      dsimp only
      rw [← he, List.take_append_drop]

theorem ChunkReader.new_idat (lenField : Nat) (rest : List Nat) (h : lenField < 2 ^ 32) :
    ChunkReader.new (beBytes4 lenField ++ (IDATb ++ rest)) =
      .ok ⟨rest, lenField, INITIAL_CRC⟩ := by
  have hL : (beBytes4 lenField ++ (IDATb ++ rest)).length = 8 + rest.length := by
    rw [List.length_append, List.length_append, beBytes4_length,
      show IDATb.length = 4 from rfl]
    omega
  unfold ChunkReader.new
  rw [if_neg (by omega), if_neg (by omega)]
  have e1 : (beBytes4 lenField ++ (IDATb ++ rest)).take 4 = beBytes4 lenField := rfl
  have e2 : ((beBytes4 lenField ++ (IDATb ++ rest)).drop 4).take 4 = IDATb := rfl
  have e3 : (beBytes4 lenField ++ (IDATb ++ rest)).drop 8 = rest := rfl
  rw [e1, e2, e3]
  dsimp only
  rw [show ChunkKind.tryFrom IDATb = some IDATb from rfl]
  dsimp only
  rw [if_pos rfl]
  rw [beU32_beBytes4 h]


/-- C1: the claim says parsing the minimal 1×1 opaque-black true-color image
returns a decoded `Png` with one pixel `(0,0,0,65535)`. The parser is
constructed successfully (width 1, height 1, truecolor depth 8), but
`PngParser::parse` ends in `todo!()` and therefore panics after assembling
the pixel vector: it can never return a `Png`, contradicting the source's own
`test_parse_tiny` test. `[0, 0, 0, 0]` is the decompressed scanline stream
the zlib black box produces for this image. -/
theorem parse_hits_todo_and_never_returns :
    PngParser.new ⟨tinyTruePng, 0⟩ = .ok tinyTrueState ∧
    tinyTrueState.width = 1 ∧ tinyTrueState.height = 1 ∧
    PngParser.parse tinyTrueState [0, 0, 0, 0] = .panic := by decide

/-- C3: the claim says a CRC mismatch on any chunk makes `read_chunks` return
an error and never a partial result. On `corruptTiny` (IDAT CRC corrupted)
the `take_while(..is_ok_and(..))` pipeline silently drops the `Err` from
`Chunk::read` and returns a truncated `Ok` sequence: the IHDR chunk followed
by the synthetic `IEND` chunk. -/
theorem read_chunks_swallows_crc_error :
    read_chunks ⟨corruptTiny, 0⟩ =
      .ok [⟨IHDRb, tinyGreyHeader⟩, ⟨IENDb, []⟩] := by decide

/-- C4: the claim says `ChunkKind::try_from` succeeds iff all 4 bytes are
ASCII letters. Because of the operator-precedence defect
`(v >= 65 && v <= 90) || (v >= 97 || v <= 122)` the second disjunct is a
tautology, so `try_from` accepts every byte vector — in particular
`[0, 0, 0, 0]`, which contains no ASCII letter. -/
theorem chunk_kind_try_from_accepts_everything :
    ChunkKind.tryFrom [0, 0, 0, 0] = some [0, 0, 0, 0] ∧
    ∀ bytes, ChunkKind.tryFrom bytes = some bytes := by
  refine ⟨by decide, fun bytes => ?_⟩
  unfold ChunkKind.tryFrom
  rw [if_pos]
  rw [List.all_eq_true]
  intro v _
  unfold ChunkKind.byteOk
  rw [decide_eq_true_eq]
  omega

/-- C5: the claim says `scanline_length` equals
`ceil(width * channels * bit_depth / 8) + 1` for every color model and bit
depth. The source computes `width * ceil(channels * bit_depth / 8) + 1`,
which differs for sub-byte depths: for the validated profile greyscale
depth 1 at width 3, the source gives 4 while the claimed formula gives
`(3 * 1 * 1 + 7) / 8 + 1 = 2`. -/
theorem scanline_length_is_not_packed :
    PngColor.new (ColorKind.Grey false) 1 = some ⟨ColorKind.Grey false, 1⟩ ∧
    scanline_length 3 ⟨ColorKind.Grey false, 1⟩ = 4 ∧
    (3 * 1 * 1 + 7) / 8 + 1 = 2 := by decide

/-- C6: the claim says `PngParser::new` rejects a header with width 0 or
height 0. The source never compares width or height against 0:
`zeroWidthPng` (width field 0, otherwise well-formed) is accepted and `new`
returns a parser state whose width is 0. -/
theorem new_accepts_zero_width :
    PngParser.new ⟨zeroWidthPng, 0⟩ = .ok zeroWidthState ∧
    zeroWidthState.width = 0 := by decide

/-- C7: the claim says the pre-IDAT scan skips unrecognized ancillary chunks
and fails on critical-but-unrecognized ones. The source's
`assert!(chunk_kind.critical())` is inverted relative to its own comment
("Throwing away, so can't be critical"): an ancillary `tEXt` chunk makes
`new` panic, while a critical unknown chunk `ABCD` is silently discarded and
`new` succeeds. -/
theorem new_inverted_critical_assert :
    PngParser.new ⟨ancillaryPng, 0⟩ = .panic ∧
    PngParser.new ⟨criticalUnknownPng, 0⟩ = .ok criticalUnknownState := by decide

/-- C8: the claim says 1-bit greyscale data `0b10011111` unpacks to the pixel
sequence white, black, black, white, white, white, white, white. The
bit-replication identities of the claim do hold for the expansion loop
(`0b11 ↦ 0xFFFF`, `0b10 ↦ 0xAAAA`, `0b01 ↦ 0x5555`, `0b00 ↦ 0x0000`), but
`PngColor::parse` reads each channel from bit offset `start_bit % 16` of the
16-bit window at byte index `start_bit / 16`: for one data byte the window's
low 8 bits are the zero padding byte, so all 8 pixels come out black —
contradicting the source's own `test_single_greyscale` test. -/
theorem color_parse_one_bit_vector_all_black :
    PngColor.parse ⟨ColorKind.Grey false, 1⟩ [0b10011111] =
      some (List.replicate 8 ⟨0, 0, 0, 0xFFFF⟩) ∧
    bitExpand 2 0b11 = 0xFFFF ∧ bitExpand 2 0b10 = 0xAAAA ∧
    bitExpand 2 0b01 = 0x5555 ∧ bitExpand 2 0b00 = 0x0000 := by decide

/-- C9: `PngColor::new(kind, depth)` succeeds exactly when `depth` lies in
the allowed set of the color model: {1,2,4,8,16} for Grey, {8,16} for
GreyAlpha/True/TrueAlpha, {1,2,4,8} for Indexed. -/
theorem pngcolor_new_iff_allowed (kind : ColorKind) (depth : Nat) (h : depth < 256) :
    (PngColor.new kind depth).isSome = true ↔ depth ∈ allowedDepthsSpec kind := by
  revert depth
  rcases kind with a | a | _
  · rcases a <;> decide
  · rcases a <;> decide
  · decide

/-- Witness for C9 at concrete inputs: depth 16 is allowed for greyscale
(and, checked directly, depth 3 is rejected for truecolor and depth 16 for
indexed). -/
theorem pngcolor_new_iff_allowed_witness :
    ((PngColor.new (ColorKind.Grey false) 16).isSome = true ∧ 16 < 256) ∧
    PngColor.new (ColorKind.True false) 3 = none ∧
    PngColor.new ColorKind.Indexed 16 = none :=
  ⟨⟨(pngcolor_new_iff_allowed (ColorKind.Grey false) 16 (by decide)).mpr (by decide),
      by decide⟩, by decide, by decide⟩

/-- C10: `INITIAL_CRC = 3394304481` is the running CRC state after feeding
the four bytes `IDAT` into the all-ones initial state, so the bridge's
incremental check value `fold(INITIAL_CRC, data) XOR u32::MAX` coincides with
`Chunk::crc` of an `IDAT` chunk with the same data, for every data byte
sequence and candidate CRC field. -/
theorem initial_crc_is_idat_state :
    INITIAL_CRC = List.foldl crcUpdate M32 IDATb ∧
    ∀ (data : List Nat) (field : Nat),
      (field = List.foldl crcUpdate INITIAL_CRC data ^^^ M32 ↔
        field = chunkCrc IDATb data) := by
  have h : INITIAL_CRC = List.foldl crcUpdate M32 IDATb := by decide
  refine ⟨h, fun data field => ?_⟩
  unfold chunkCrc
  rw [← h]

/-- C2 counterexample: on the correct-CRC chunk stream with a zero-length
`IDAT` chunk in the middle (`zeroLenStream`), reading one byte at a time
succeeds with only the first chunk's 2 bytes `[97, 98]` (the bridge treats
`leftover = 0` as end-of-stream and silently drops the rest), while reading
with a whole-stream buffer panics (the post-loop `self.leftover -= bc - used`
underflows). The claim's read-granularity equivalence therefore fails for
streams that may contain zero-length chunks: neither the concatenated output
nor the success/failure outcome agrees. -/
theorem zero_length_chunk_breaks_granularity :
    ChunkReader.new zeroLenStream = .ok zeroLenReader ∧
    readAll zeroLenReader 1 = .ok [97, 98] ∧
    readAll zeroLenReader zeroLenStream.length = .panic := by decide

/-- C2 (amended): for every chunk stream consisting of a run of nonempty
`IDAT` chunks terminated by an `IEND` chunk, each with correct CRC, and for
every read granularity `n ≥ 1`, constructing a `ChunkReader` over the stream
and reading it to exhaustion in `n`-byte buffers succeeds and yields exactly
the concatenation of the chunk payloads. One-byte, 7-byte and whole-stream
reads therefore all produce the identical concatenated content bytes and the
identical success outcome, wherever the chunk boundaries fall relative to the
read buffers. (Zero-length chunks are excluded; see the counterexample.) -/
theorem chunk_reader_granularity_equivalence (chunks : List (List Nat))
    (hchunks : ∀ d ∈ chunks, d ≠ [] ∧ d.length < 2 ^ 32) (n : Nat) (hn : 1 ≤ n) :
    ∃ s, ChunkReader.new (idatStream chunks) = .ok s ∧
      readAll s n = .ok chunks.flatten := by
  cases chunks with
  | nil =>
    refine ⟨⟨(idatStream []).drop 8, 0, INITIAL_CRC⟩, by decide, ?_⟩
    unfold readAll
    exact readAllGo_spec _ _ [] n (Or.inl ⟨rfl, rfl⟩) (Nat.lt_succ_self _) hn
  | cons d ds =>
    have hd : d ≠ [] := (hchunks d (List.mem_cons_self d ds)).1
    have hdlen : d.length < 2 ^ 32 := (hchunks d (List.mem_cons_self d ds)).2
    have hq : streamOk ds := fun x hx => hchunks x (List.mem_cons_of_mem d hx)
    have hnew : ChunkReader.new (idatStream (d :: ds)) =
        .ok ⟨d ++ (beBytes4 (List.foldl crcUpdate INITIAL_CRC d ^^^ M32) ++ idatStream ds),
          d.length, INITIAL_CRC⟩ := by
      rw [idatStream_cons']
      exact ChunkReader.new_idat d.length _ hdlen
    refine ⟨_, hnew, ?_⟩
    unfold readAll
    apply readAllGo_spec
    · exact Or.inr ⟨d, ds, hd, hq, INITIAL_CRC_lt, by rw [List.flatten_cons], rfl, rfl⟩
    · exact Nat.lt_succ_self _
    · exact hn

/-- Witness for C2 at the spec's concrete instance: 3 fixed 10-byte `IDAT`
chunks reconstruct the same 30 content bytes (here at granularity 7; the
theorem applies verbatim to granularities 1 and the whole stream as well). -/
theorem chunk_reader_granularity_equivalence_witness :
    (∀ d ∈ [d10, d10, d10], d ≠ [] ∧ d.length < 2 ^ 32) ∧ 1 ≤ 7 ∧
    ([d10, d10, d10].flatten).length = 30 ∧
    (∃ s, ChunkReader.new (idatStream [d10, d10, d10]) = .ok s ∧
      readAll s 7 = .ok [d10, d10, d10].flatten) :=
  ⟨by decide, by decide, by decide,
    chunk_reader_granularity_equivalence [d10, d10, d10] (by decide) 7 (by decide)⟩

end PngV
